import Mathlib

/-!
Verification of the elasticsearch2go schema-to-struct generator.

The development embeds, as executable Lean definitions:
  * the type resolver, name resolver and flat struct emission of
    `src/pkg/datamodelgen/generator.go` (`mapElasticsearchTypeToGoType`,
    `mapElasticsearchFieldToGoField`, `toCamelCase`, the field-collection
    loop and alphabetical sort of `processFile`, and `structTemplate`);
  * the recursive schema-tree walker, emission registry and template
    renderer of the library entry point `GenerateDatamodel`.  That file is
    referenced by `cmd/main.go` and by the README but its source is not in
    the repository snapshot, so those definitions are modelled from the
    specification (each such definition carries a doc comment starting
    with `Modelled from the spec:`).

Strings are treated at the level of their character lists; Go's byte-wise
string comparison is modelled by the lexicographic comparison of
characters (`charListLe`), which agrees with byte order on UTF-8 text.
Go's randomized map iteration is made explicit: every function that the
Go code feeds from a map takes the entries as a list, the list order
standing for the iteration order of one concrete run.
-/

namespace ES2Go

/-- Lexicographic (byte-wise) comparison of character lists; models Go's
built-in `<=` on strings (UTF-8 byte order equals code-point order). -/
def charListLe : List Char → List Char → Bool
  | [], _ => true
  | _ :: _, [] => false
  | a :: as, b :: bs => if a < b then true else if b < a then false else charListLe as bs

/-- Go `s1 <= s2` for strings, via the character lists. -/
def strLeB (a b : String) : Bool := charListLe a.data b.data

/-- One step of `cases.Title(language.Und)` from `toCamelCase`
(generator.go:229).  The Boolean state records whether a cased letter has
already been seen in the current word: the first cased letter of a word is
title-cased and every later cased letter is lower-cased.  A digit is
uncased — it neither opens nor closes a word and leaves the state
unchanged, so the first letter after leading digits is still title-cased
(`1abc` becomes `1Abc`, `a1b` becomes `A1b`).  Any other character is kept
and ends the word.  Modelled for ASCII alphanumeric input. -/
def goTitleAux : Bool → List Char → List Char
  | _, [] => []
  | seenCased, c :: cs =>
    if c.isAlpha then
      (if seenCased then c.toLower else c.toUpper) :: goTitleAux true cs
    else if c.isDigit then
      c :: goTitleAux seenCased cs
    else
      c :: goTitleAux false cs

/-- `caser.String part` of `toCamelCase` (generator.go:232). -/
def goTitle (s : String) : String := ⟨goTitleAux false s.data⟩

/-- Go `strings.Split(s, "_")` (generator.go:230), at the character level:
splits on every underscore, keeping empty segments. -/
def splitUnderscore : List Char → List (List Char)
  | [] => [[]]
  | c :: cs =>
    if c = '_' then [] :: splitUnderscore cs
    else
      match splitUnderscore cs with
      | [] => [[c]]
      | p :: ps => (c :: p) :: ps

/-- `toCamelCase` (generator.go:228-235): split on `_`, title-case each
segment, concatenate (`strings.Join(parts, "")`). -/
def toCamelCase (s : String) : String :=
  ⟨List.flatten ((splitUnderscore s.data).map (goTitleAux false))⟩

/-- A JSON override table (`map[string]string` in the Go source),
with the run's iteration-independent lookup. -/
abbrev Table := List (String × String)

/-- Go map lookup `t[k]` for an override table. -/
def lookupTable (t : Table) (k : String) : Option String :=
  match t with
  | [] => none
  | (k', v) :: rest => if k' = k then some v else lookupTable rest k

/-- The default `GoTypeMap` of generator.go:84-96. -/
def defaultGoTypeMap : Table :=
  [("integer", "*uint64"), ("float", "*float64"), ("boolean", "bool"),
   ("text", "*string"), ("keyword", "*string"), ("date", "*time.Time"),
   ("geo_point", "*GeoPoint"), ("object", "*map[string]interface\x7b\x7d"),
   ("nested", "[]interface\x7b\x7d")]

/-- `mapElasticsearchTypeToGoType` (generator.go:169-181): a
`TypeExceptions` entry for the field name wins, then `GoTypeMap` for the
declared type, else the fallback `interface\x7b\x7d`. -/
def mapElasticsearchTypeToGoType (typeExceptions goTypeMap : Table)
    (name esType : String) : String :=
  match lookupTable typeExceptions name with
  | some customType => customType
  | none =>
    match lookupTable goTypeMap esType with
    | some goType => goType
    | none => "interface\x7b\x7d"

/-- `mapElasticsearchFieldToGoField` (generator.go:183-190): a
`FieldExceptions` entry is returned verbatim, else `toCamelCase`. -/
def mapElasticsearchFieldToGoField (fieldExceptions : Table) (esFieldName : String) : String :=
  match lookupTable fieldExceptions esFieldName with
  | some customFieldName => customFieldName
  | none => toCamelCase esFieldName

/-- The `Field` record of generator.go:43-47. -/
structure Field where
  FieldName : String
  FieldType : String
  JSONName : String
deriving DecidableEq, Repr

/-- The comparison used by `sort.Slice` in `processFile`
(generator.go:138-141): ordered by `FieldName`. -/
def goFieldLe (a b : Field) : Prop := strLeB a.FieldName b.FieldName = true

instance : DecidableRel goFieldLe := fun a b => inferInstanceAs (Decidable (_ = true))

/-- Strict ascent of resolved identifiers between two emitted fields of
`processFile`'s output. -/
def goFieldLt (a b : Field) : Prop := goFieldLe a b ∧ a.FieldName ≠ b.FieldName

instance : DecidableRel goFieldLt := fun a b => inferInstanceAs (Decidable (_ ∧ _))

/-- The `Field` built for one property by the loop body of `processFile`
(generator.go:128-136). -/
def mkSrcField (fieldExceptions typeExceptions goTypeMap : Table)
    (p : String × String) : Field :=
  { FieldName := mapElasticsearchFieldToGoField fieldExceptions p.1
    FieldType := mapElasticsearchTypeToGoType typeExceptions goTypeMap p.1 p.2
    JSONName := p.1 }

/-- The field-collection loop and sort of `processFile`
(generator.go:127-141).  `props` lists the entries of
`esMapping.Mappings.Properties` in the iteration order of one run; the
sort is modelled by a stable insertion sort on that order, which agrees
with Go's sort whenever the keys are distinct. -/
def processFileFields (fieldExceptions typeExceptions goTypeMap : Table)
    (props : List (String × String)) : List Field :=
  List.insertionSort goFieldLe
    (props.map (mkSrcField fieldExceptions typeExceptions goTypeMap))

/-- One field line of `structTemplate` (generator.go:30-41). -/
def renderField (f : Field) : String :=
  "\t" ++ f.FieldName ++ " " ++ f.FieldType ++ " `json:\"" ++ f.JSONName ++ "\"`\n"

/-- `strings.Join`-style concatenation of rendered parts. -/
def concatAll : List String → String
  | [] => ""
  | s :: rest => s ++ concatAll rest

/-- `structTemplate` instantiated as in `processFile`
(generator.go:30-41,143-160). -/
def renderStructSrc (packageName initClassName structName : String)
    (fields : List Field) : String :=
  "package " ++ packageName ++ "\n\ntype " ++ initClassName ++ " struct \x7b\n\t"
    ++ structName ++ "\n\x7d\n\ntype " ++ structName ++ " struct \x7b\n"
    ++ concatAll (fields.map renderField) ++ "\x7d\n"

/-- The full text produced by one `processFile` run (generator.go:115-167),
as a function of the property iteration order. -/
def processFileOutput (fieldExceptions typeExceptions goTypeMap : Table)
    (packageName structName initClassName : String)
    (props : List (String × String)) : String :=
  renderStructSrc packageName initClassName structName
    (processFileFields fieldExceptions typeExceptions goTypeMap props)

/-- Modelled from the spec: one node of the recursive property tree
(spec §3 PropertyNode) consumed by the library walker `GenerateDatamodel`,
whose source is not in the snapshot (only its caller `cmd/main.go` is). -/
inductive PropertyNode where
  | mk (type : String) (children : List (String × PropertyNode)) : PropertyNode

def PropertyNode.type : PropertyNode → String
  | .mk t _ => t

def PropertyNode.children : PropertyNode → List (String × PropertyNode)
  | .mk _ c => c

/-- Modelled from the spec: a field as resolved during emission
(spec §3 ResolvedField). -/
structure ResolvedField where
  emittedName : String
  emittedType : String
  sourceKey : String
  comment : Option String
deriving DecidableEq, Repr

/-- Modelled from the spec: a named emitted structure
(spec §3 StructureDefinition). -/
structure StructureDefinition where
  name : String
  fields : List ResolvedField
deriving DecidableEq, Repr

/-- Modelled from the spec: the run's override tables (spec §3),
immutable during the walk. -/
structure Config where
  typeMapping : Table
  fieldExceptions : Table
  typeExceptions : Table
  skipFields : List String
  fieldComments : Table

/-- Modelled from the spec (§4.3, missing library walker): recursion
triggers strictly on the declared-type tag `object` or `nested`. -/
def isComposite (t : String) : Bool := t == "object" || t == "nested"

/-- Modelled from the spec (§4.3, §9): strip pointer and collection
decoration from a `TypeExceptions` hint to recover a bare structure name. -/
def stripDecorChars : List Char → List Char
  | '*' :: cs => stripDecorChars cs
  | '[' :: ']' :: cs => stripDecorChars cs
  | cs => cs

def stripDecoration (s : String) : String := ⟨stripDecorChars s.data⟩

/-- Modelled from the spec (§4.3 step 3): the sub-structure's target name —
the stripped `TypeExceptions` hint when present, else the UpperCamel form
of the field's own name. -/
def subStructName (cfg : Config) (fieldName : String) : String :=
  match lookupTable cfg.typeExceptions fieldName with
  | some hint => stripDecoration hint
  | none => toCamelCase fieldName

/-- Modelled from the spec (§4.1/§4.3): the composite reference type for a
field redirected to sub-structure `sub` — a collection of `sub` for
`nested`, a nullable reference for `object`. -/
def compositeRef (declaredType sub : String) : String :=
  if declaredType == "nested" then "[]" ++ sub else "*" ++ sub

/-- Modelled from the spec (§4.3 step 3): the resolved field for a
composite property. -/
def mkCompositeField (cfg : Config) (name ntype : String) : ResolvedField :=
  { emittedName := mapElasticsearchFieldToGoField cfg.fieldExceptions name
    emittedType := compositeRef ntype (subStructName cfg name)
    sourceKey := name
    comment := lookupTable cfg.fieldComments name }

/-- Modelled from the spec (§4.3 step 3): the resolved field for a scalar
property, via the Type Resolver. -/
def mkScalarField (cfg : Config) (name ntype : String) : ResolvedField :=
  { emittedName := mapElasticsearchFieldToGoField cfg.fieldExceptions name
    emittedType := mapElasticsearchTypeToGoType cfg.typeExceptions cfg.typeMapping name ntype
    sourceKey := name
    comment := lookupTable cfg.fieldComments name }

/-- Modelled from the spec (§4.3 step 4, §3): fields of one structure are
ordered by resolved identifier (stable sort on the traversal order). -/
def fieldLe (a b : ResolvedField) : Prop := strLeB a.emittedName b.emittedName = true

instance : DecidableRel fieldLe := fun a b => inferInstanceAs (Decidable (_ = true))

/-- Strict ascent of resolved identifiers between two emitted fields of a
walker structure. -/
def fieldLt (a b : ResolvedField) : Prop := fieldLe a b ∧ a.emittedName ≠ b.emittedName

instance : DecidableRel fieldLt := fun a b => inferInstanceAs (Decidable (_ ∧ _))

def sortFields (l : List ResolvedField) : List ResolvedField :=
  List.insertionSort fieldLe l

/-- Modelled from the spec (§4.3): the schema-tree walk over one property
list.  Arguments: the emission registry so far and the properties in
traversal order.  Returns the resolved fields of the current level, the
nested structure definitions collected in recursion order, and the final
registry.  A composite property whose sub-structure name is already
registered contributes its field but no new definition (idempotent
re-entry guard); otherwise the name is registered before recursing. -/
def walkProps (cfg : Config) :
    List String → List (String × PropertyNode) →
      List ResolvedField × List StructureDefinition × List String
  | reg, [] => ([], [], reg)
  | reg, (name, PropertyNode.mk ntype children) :: rest =>
    if name ∈ cfg.skipFields then
      walkProps cfg reg rest
    else if isComposite ntype then
      if subStructName cfg name ∈ reg then
        (mkCompositeField cfg name ntype :: (walkProps cfg reg rest).1,
         (walkProps cfg reg rest).2.1,
         (walkProps cfg reg rest).2.2)
      else
        (mkCompositeField cfg name ntype ::
           (walkProps cfg (walkProps cfg (subStructName cfg name :: reg) children).2.2 rest).1,
         (StructureDefinition.mk (subStructName cfg name)
             (sortFields (walkProps cfg (subStructName cfg name :: reg) children).1)
           :: (walkProps cfg (subStructName cfg name :: reg) children).2.1)
           ++ (walkProps cfg (walkProps cfg (subStructName cfg name :: reg) children).2.2 rest).2.1,
         (walkProps cfg (walkProps cfg (subStructName cfg name :: reg) children).2.2 rest).2.2)
    else
      (mkScalarField cfg name ntype :: (walkProps cfg reg rest).1,
       (walkProps cfg reg rest).2.1,
       (walkProps cfg reg rest).2.2)
termination_by reg props => sizeOf props

/-- Modelled from the spec (§4.3): `emit(structureName, properties)` — the
re-entry guard, registration, walk, sort and assembly of the structure's
own definition followed by the nested definitions in recursion order. -/
def emitStruct (cfg : Config) (reg : List String) (structureName : String)
    (props : List (String × PropertyNode)) :
    List StructureDefinition × List String :=
  if structureName ∈ reg then ([], reg)
  else
    (StructureDefinition.mk structureName
        (sortFields (walkProps cfg (structureName :: reg) props).1)
      :: (walkProps cfg (structureName :: reg) props).2.1,
     (walkProps cfg (structureName :: reg) props).2.2)

/-- The names of a list of emitted definitions. -/
def defNames (ds : List StructureDefinition) : List String :=
  ds.map StructureDefinition.name

/-- Modelled from the spec (§4.4, §6): the optional trailing comment of a
rendered field line. -/
def renderComment : Option String → String
  | some c => " // " ++ c
  | none => ""

/-- Modelled from the spec (§4.4, §6): one rendered field line, tagged for
round-trip serialization with the original source field name. -/
def renderResolvedField (f : ResolvedField) : String :=
  "\t" ++ f.emittedName ++ " " ++ f.emittedType ++ " `json:\"" ++ f.sourceKey ++ "\"`"
    ++ renderComment f.comment ++ "\n"

/-- Modelled from the spec (§4.4): one rendered structure definition. -/
def renderStructureDefinition (d : StructureDefinition) : String :=
  "type " ++ d.name ++ " struct \x7b\n"
    ++ concatAll (d.fields.map renderResolvedField) ++ "\x7d\n"

/-- Modelled from the spec (§4.3 step 5): the structure-definitions block. -/
def renderDefs (ds : List StructureDefinition) : String :=
  concatAll (ds.map fun d => renderStructureDefinition d ++ "\n")

/-- Modelled from the spec (§4.4): the wrapper declaration embedding the
root structure as a single composed field. -/
def wrapperDecl (wrapperName rootName : String) : String :=
  "type " ++ wrapperName ++ " struct \x7b\n\t" ++ rootName ++ "\n\x7d\n\n"

/-- Modelled from the spec (§4.4): the two built-in templates — with the
wrapper structure when a wrapper name is configured, without it
otherwise. -/
def renderOutput (packageName : String) (wrapperName : Option String)
    (rootName : String) (defsText : String) : String :=
  match wrapperName with
  | some w => "package " ++ packageName ++ "\n\n" ++ wrapperDecl w rootName ++ defsText
  | none => "package " ++ packageName ++ "\n\n" ++ defsText

/-- Modelled from the spec: one full generation run of the library
(`GenerateDatamodel`), from property tree to output text. -/
def generateOutput (cfg : Config) (packageName : String)
    (wrapperName : Option String) (rootName : String)
    (props : List (String × PropertyNode)) : String :=
  renderOutput packageName wrapperName rootName
    (renderDefs (emitStruct cfg [] rootName props).1)

/-- `(n, nd)` is a property somewhere in the given property forest. -/
inductive PropOccurs (n : String) (nd : PropertyNode) :
    List (String × PropertyNode) → Prop where
  | here {props : List (String × PropertyNode)} :
      (n, nd) ∈ props → PropOccurs n nd props
  | inChild {props : List (String × PropertyNode)} (m : String) (md : PropertyNode) :
      (m, md) ∈ props → PropOccurs n nd md.children → PropOccurs n nd props

/-- Demo configuration: default type map, no overrides. -/
def cfgEmpty : Config := ⟨defaultGoTypeMap, [], [], [], []⟩

/-- Demo configuration skipping the source field `secret`. -/
def cfgSkipDemo : Config := ⟨defaultGoTypeMap, [], [], ["secret"], []⟩

/-- Demo configuration renaming the source field `cafe_name` to `Title`. -/
def cfgRenameDemo : Config := ⟨defaultGoTypeMap, [("cafe_name", "Title")], [], [], []⟩

/-- Demo forest: a nested property with one child, as in the README's cafe
mapping. -/
def propsCafe : List (String × PropertyNode) :=
  [("menu_items", PropertyNode.mk "nested" [("item_name", PropertyNode.mk "text" [])])]

/-- Demo forest: one skipped and one kept scalar property. -/
def propsSkipDemo : List (String × PropertyNode) :=
  [("secret", PropertyNode.mk "text" []), ("cafe_name", PropertyNode.mk "text" [])]

/-- Demo forest: a single scalar property subject to renaming. -/
def propsRenameDemo : List (String × PropertyNode) :=
  [("cafe_name", PropertyNode.mk "text" [])]

/-- Demo forest: two composite properties whose derived sub-structure names
collide (`abc` and `abC` both camel-case to `Abc`). -/
def propsDup : List (String × PropertyNode) :=
  [("abc", PropertyNode.mk "nested" [("p", PropertyNode.mk "text" [])]),
   ("abC", PropertyNode.mk "nested" [("q", PropertyNode.mk "keyword" [])])]

theorem string_ext {a b : String} (h : a.data = b.data) : a = b := by
  cases a; cases b; exact congrArg String.mk h

theorem charListLe_total : ∀ a b : List Char, charListLe a b = true ∨ charListLe b a = true := by
  intro a
  induction a with
  | nil => intro b; left; rfl
  | cons x xs ih =>
    intro b
    cases b with
    | nil => right; rfl
    | cons y ys =>
      rcases lt_trichotomy x y with h | h | h
      · left; simp [charListLe, h]
      · subst h
        rcases ih ys with h2 | h2
        · left; simp [charListLe, h2]
        · right; simp [charListLe, h2]
      · right; simp [charListLe, h, lt_asymm h]

theorem charListLe_antisymm : ∀ a b : List Char,
    charListLe a b = true → charListLe b a = true → a = b := by
  intro a
  induction a with
  | nil =>
    intro b _ hba
    cases b with
    | nil => rfl
    | cons y ys => simp [charListLe] at hba
  | cons x xs ih =>
    intro b hab hba
    cases b with
    | nil => simp [charListLe] at hab
    | cons y ys =>
      rcases lt_trichotomy x y with h | h | h
      · simp [charListLe, h, lt_asymm h] at hba
      · subst h
        simp only [charListLe, lt_irrefl, if_false] at hab hba
        rw [ih ys hab hba]
      · simp [charListLe, h, lt_asymm h] at hab

theorem charListLe_trans : ∀ a b c : List Char,
    charListLe a b = true → charListLe b c = true → charListLe a c = true := by
  intro a
  induction a with
  | nil => intro b c _ _; rfl
  | cons x xs ih =>
    intro b c hab hbc
    cases b with
    | nil => simp [charListLe] at hab
    | cons y ys =>
      cases c with
      | nil => simp [charListLe] at hbc
      | cons z zs =>
        rcases lt_trichotomy x y with hxy | hxy | hxy
        · rcases lt_trichotomy y z with hyz | hyz | hyz
          · simp [charListLe, lt_trans hxy hyz]
          · subst hyz; simp [charListLe, hxy]
          · simp [charListLe, hyz, lt_asymm hyz] at hbc
        · subst hxy
          rcases lt_trichotomy x z with hyz | hyz | hyz
          · simp [charListLe, hyz]
          · subst hyz
            simp only [charListLe, lt_irrefl, if_false] at hab hbc ⊢
            exact ih ys zs hab hbc
          · simp [charListLe, hyz, lt_asymm hyz] at hbc
        · simp [charListLe, hxy, lt_asymm hxy] at hab

theorem strLeB_total (a b : String) : strLeB a b = true ∨ strLeB b a = true :=
  charListLe_total a.data b.data

theorem strLeB_trans {a b c : String} (h1 : strLeB a b = true) (h2 : strLeB b c = true) :
    strLeB a c = true :=
  charListLe_trans a.data b.data c.data h1 h2

theorem strLeB_antisymm {a b : String} (h1 : strLeB a b = true) (h2 : strLeB b a = true) :
    a = b :=
  string_ext (charListLe_antisymm a.data b.data h1 h2)

theorem pairwise_strict_of_nodup {α : Type} (key : α → String) {l : List α}
    (hle : l.Pairwise fun a b => strLeB (key a) (key b) = true)
    (hnd : (l.map key).Nodup) :
    l.Pairwise fun a b => (strLeB (key a) (key b) = true) ∧ key a ≠ key b :=
  hle.and (List.pairwise_map.mp hnd)

theorem eq_of_perm_of_sorted_key {α : Type} (key : α → String) {l1 l2 : List α}
    (hp : l1.Perm l2)
    (hs1 : l1.Pairwise fun a b => strLeB (key a) (key b) = true)
    (hs2 : l2.Pairwise fun a b => strLeB (key a) (key b) = true)
    (hnd : (l1.map key).Nodup) : l1 = l2 := by
  haveI : IsAntisymm α (fun a b => (strLeB (key a) (key b) = true) ∧ key a ≠ key b) :=
    ⟨fun a b h1 h2 => absurd (strLeB_antisymm h1.1 h2.1) h1.2⟩
  exact List.eq_of_perm_of_sorted hp (pairwise_strict_of_nodup key hs1 hnd)
    (pairwise_strict_of_nodup key hs2 ((hp.map key).nodup_iff.mp hnd))

theorem sortFields_sorted (l : List ResolvedField) : (sortFields l).Pairwise fieldLe := by
  haveI : IsTotal ResolvedField fieldLe := ⟨fun a b => strLeB_total _ _⟩
  haveI : IsTrans ResolvedField fieldLe := ⟨fun _ _ _ => strLeB_trans⟩
  exact List.sorted_insertionSort fieldLe l

theorem sortFields_perm (l : List ResolvedField) : (sortFields l).Perm l :=
  List.perm_insertionSort fieldLe l

theorem mem_sortFields {l : List ResolvedField} {f : ResolvedField} :
    f ∈ sortFields l ↔ f ∈ l :=
  List.mem_insertionSort fieldLe

theorem processFileFields_sorted (fe te gm : Table) (props : List (String × String)) :
    (processFileFields fe te gm props).Pairwise goFieldLe := by
  haveI : IsTotal Field goFieldLe := ⟨fun a b => strLeB_total _ _⟩
  haveI : IsTrans Field goFieldLe := ⟨fun _ _ _ => strLeB_trans⟩
  exact List.sorted_insertionSort goFieldLe _

theorem processFileFields_perm (fe te gm : Table) (props : List (String × String)) :
    (processFileFields fe te gm props).Perm (props.map (mkSrcField fe te gm)) :=
  List.perm_insertionSort goFieldLe _

theorem defNames_nil : defNames [] = [] := rfl

theorem defNames_cons (d : StructureDefinition) (ds : List StructureDefinition) :
    defNames (d :: ds) = d.name :: defNames ds := rfl

theorem defNames_append (l1 l2 : List StructureDefinition) :
    defNames (l1 ++ l2) = defNames l1 ++ defNames l2 :=
  List.map_append _ _ _

theorem walkProps_nil (cfg : Config) (reg : List String) :
    walkProps cfg reg [] = ([], [], reg) := by
  simp [walkProps]

theorem walkProps_skip (cfg : Config) (reg : List String) (name ntype : String)
    (children rest : List (String × PropertyNode)) (h : name ∈ cfg.skipFields) :
    walkProps cfg reg ((name, PropertyNode.mk ntype children) :: rest) =
      walkProps cfg reg rest := by
  simp only [walkProps]
  rw [if_pos h]

theorem walkProps_comp_seen (cfg : Config) (reg : List String) (name ntype : String)
    (children rest : List (String × PropertyNode))
    (h1 : name ∉ cfg.skipFields) (h2 : isComposite ntype = true)
    (h3 : subStructName cfg name ∈ reg) :
    walkProps cfg reg ((name, PropertyNode.mk ntype children) :: rest) =
      (mkCompositeField cfg name ntype :: (walkProps cfg reg rest).1,
       (walkProps cfg reg rest).2.1,
       (walkProps cfg reg rest).2.2) := by
  simp only [walkProps]
  rw [if_neg h1, if_pos h2, if_pos h3]

theorem walkProps_comp_new (cfg : Config) (reg : List String) (name ntype : String)
    (children rest : List (String × PropertyNode))
    (h1 : name ∉ cfg.skipFields) (h2 : isComposite ntype = true)
    (h3 : subStructName cfg name ∉ reg) :
    walkProps cfg reg ((name, PropertyNode.mk ntype children) :: rest) =
      (mkCompositeField cfg name ntype ::
         (walkProps cfg (walkProps cfg (subStructName cfg name :: reg) children).2.2 rest).1,
       (StructureDefinition.mk (subStructName cfg name)
           (sortFields (walkProps cfg (subStructName cfg name :: reg) children).1)
         :: (walkProps cfg (subStructName cfg name :: reg) children).2.1)
         ++ (walkProps cfg (walkProps cfg (subStructName cfg name :: reg) children).2.2 rest).2.1,
       (walkProps cfg (walkProps cfg (subStructName cfg name :: reg) children).2.2 rest).2.2) := by
  simp only [walkProps]
  rw [if_neg h1, if_pos h2, if_neg h3]

theorem walkProps_scalar (cfg : Config) (reg : List String) (name ntype : String)
    (children rest : List (String × PropertyNode))
    (h1 : name ∉ cfg.skipFields) (h2 : ¬ isComposite ntype = true) :
    walkProps cfg reg ((name, PropertyNode.mk ntype children) :: rest) =
      (mkScalarField cfg name ntype :: (walkProps cfg reg rest).1,
       (walkProps cfg reg rest).2.1,
       (walkProps cfg reg rest).2.2) := by
  simp only [walkProps]
  rw [if_neg h1, if_neg h2]

theorem walk_registry (cfg : Config) : ∀ (reg : List String)
    (props : List (String × PropertyNode)),
    (∀ x, x ∈ (walkProps cfg reg props).2.2 ↔
        x ∈ defNames (walkProps cfg reg props).2.1 ∨ x ∈ reg)
    ∧ (defNames (walkProps cfg reg props).2.1).Nodup
    ∧ (∀ d ∈ (walkProps cfg reg props).2.1, d.name ∉ reg) := by
  intro reg props
  induction reg, props using walkProps.induct cfg with
  | case1 reg =>
    rw [walkProps_nil]
    simp [defNames]
  | case2 reg name ntype children rest h1 ih =>
    rw [walkProps_skip cfg reg name ntype children rest h1]
    exact ih
  | case3 reg name ntype children rest h1 h2 h3 ih =>
    rw [walkProps_comp_seen cfg reg name ntype children rest h1 h2 h3]
    exact ih
  | case5 reg name ntype children rest h1 h2 ih =>
    rw [walkProps_scalar cfg reg name ntype children rest h1 h2]
    exact ih
  | case4 reg name ntype children rest h1 h2 h3 ihc ihr =>
    rw [walkProps_comp_new cfg reg name ntype children rest h1 h2 h3]
    obtain ⟨ac, bc, cc⟩ := ihc
    obtain ⟨ar, br, cr⟩ := ihr
    have hSin : subStructName cfg name ∈
        (walkProps cfg (subStructName cfg name :: reg) children).2.2 :=
      (ac _).mpr (Or.inr (List.mem_cons_self _ _))
    have hRegSub : ∀ x ∈ reg,
        x ∈ (walkProps cfg (subStructName cfg name :: reg) children).2.2 :=
      fun x hx => (ac x).mpr (Or.inr (List.mem_cons_of_mem _ hx))
    have hCSub : ∀ x ∈ defNames (walkProps cfg (subStructName cfg name :: reg) children).2.1,
        x ∈ (walkProps cfg (subStructName cfg name :: reg) children).2.2 :=
      fun x hx => (ac x).mpr (Or.inl hx)
    refine ⟨?_, ?_, ?_⟩
    · intro x
      rw [ar x]
      simp only [defNames_cons, defNames_append, List.mem_cons, List.mem_append, ac x]
      tauto
    · simp only [List.cons_append, defNames_cons, defNames_append]
      refine List.nodup_cons.mpr ⟨?_, List.Nodup.append bc br ?_⟩
      · rw [List.mem_append]
        rintro (hS | hS)
        · simp only [defNames, List.mem_map] at hS
          obtain ⟨d, hd, hdn⟩ := hS
          exact cc d hd (by rw [hdn]; exact List.mem_cons_self _ _)
        · simp only [defNames, List.mem_map] at hS
          obtain ⟨d, hd, hdn⟩ := hS
          exact cr d hd (by rw [hdn]; exact hSin)
      · intro x hxc hxr
        simp only [defNames, List.mem_map] at hxr
        obtain ⟨d, hd, hdn⟩ := hxr
        exact cr d hd (by rw [hdn]; exact hCSub x hxc)
    · intro d hd
      simp only [List.mem_append, List.mem_cons] at hd
      rcases hd with (rfl | hd) | hd
      · exact h3
      · intro hin
        exact cc d hd (List.mem_cons_of_mem _ hin)
      · intro hin
        exact cr d hd (hRegSub _ hin)

theorem walk_reg_mono (cfg : Config) (reg : List String)
    (props : List (String × PropertyNode)) :
    ∀ x ∈ reg, x ∈ (walkProps cfg reg props).2.2 :=
  fun x hx => ((walk_registry cfg reg props).1 x).mpr (Or.inr hx)

theorem walk_defs_sorted (cfg : Config) : ∀ (reg : List String)
    (props : List (String × PropertyNode)),
    ∀ d ∈ (walkProps cfg reg props).2.1, d.fields.Pairwise fieldLe := by
  intro reg props
  induction reg, props using walkProps.induct cfg with
  | case1 reg =>
    rw [walkProps_nil]
    intro d hd
    exact absurd hd (List.not_mem_nil d)
  | case2 reg name ntype children rest h1 ih =>
    rw [walkProps_skip cfg reg name ntype children rest h1]
    exact ih
  | case3 reg name ntype children rest h1 h2 h3 ih =>
    rw [walkProps_comp_seen cfg reg name ntype children rest h1 h2 h3]
    exact ih
  | case5 reg name ntype children rest h1 h2 ih =>
    rw [walkProps_scalar cfg reg name ntype children rest h1 h2]
    exact ih
  | case4 reg name ntype children rest h1 h2 h3 ihc ihr =>
    rw [walkProps_comp_new cfg reg name ntype children rest h1 h2 h3]
    intro d hd
    simp only [List.cons_append, List.mem_cons, List.mem_append] at hd
    rcases hd with rfl | hd | hd
    · exact sortFields_sorted _
    · exact ihc d hd
    · exact ihr d hd

theorem walk_skip_invariant (cfg : Config) : ∀ (reg : List String)
    (props : List (String × PropertyNode)),
    (∀ f ∈ (walkProps cfg reg props).1, f.sourceKey ∉ cfg.skipFields)
    ∧ (∀ d ∈ (walkProps cfg reg props).2.1, ∀ f ∈ d.fields,
        f.sourceKey ∉ cfg.skipFields) := by
  intro reg props
  induction reg, props using walkProps.induct cfg with
  | case1 reg =>
    rw [walkProps_nil]
    exact ⟨fun f hf => absurd hf (List.not_mem_nil f),
           fun d hd => absurd hd (List.not_mem_nil d)⟩
  | case2 reg name ntype children rest h1 ih =>
    rw [walkProps_skip cfg reg name ntype children rest h1]
    exact ih
  | case3 reg name ntype children rest h1 h2 h3 ih =>
    rw [walkProps_comp_seen cfg reg name ntype children rest h1 h2 h3]
    refine ⟨?_, ih.2⟩
    intro f hf
    rcases List.mem_cons.mp hf with rfl | hf
    · exact h1
    · exact ih.1 f hf
  | case5 reg name ntype children rest h1 h2 ih =>
    rw [walkProps_scalar cfg reg name ntype children rest h1 h2]
    refine ⟨?_, ih.2⟩
    intro f hf
    rcases List.mem_cons.mp hf with rfl | hf
    · exact h1
    · exact ih.1 f hf
  | case4 reg name ntype children rest h1 h2 h3 ihc ihr =>
    rw [walkProps_comp_new cfg reg name ntype children rest h1 h2 h3]
    constructor
    · intro f hf
      rcases List.mem_cons.mp hf with rfl | hf
      · exact h1
      · exact ihr.1 f hf
    · intro d hd
      simp only [List.cons_append, List.mem_cons, List.mem_append] at hd
      rcases hd with rfl | hd | hd
      · intro f hf
        exact ihc.1 f (mem_sortFields.mp hf)
      · exact ihc.2 d hd
      · exact ihr.2 d hd

theorem PropOccurs.mono {n : String} {nd : PropertyNode}
    {props props' : List (String × PropertyNode)} (hsub : ∀ p ∈ props, p ∈ props')
    (h : PropOccurs n nd props) : PropOccurs n nd props' := by
  induction h with
  | here hmem => exact PropOccurs.here (hsub _ hmem)
  | inChild m md hmem hocc _ => exact PropOccurs.inChild m md (hsub _ hmem) hocc

/-- The provenance a field carries: its wire key is an actual schema field
name occurring in the forest, and its emitted identifier is the Name
Resolver applied to that wire key. -/
def FieldFrom (cfg : Config) (f : ResolvedField)
    (props : List (String × PropertyNode)) : Prop :=
  ∃ n nd, PropOccurs n nd props ∧ f.sourceKey = n
    ∧ f.emittedName = mapElasticsearchFieldToGoField cfg.fieldExceptions n

theorem walk_provenance (cfg : Config) : ∀ (reg : List String)
    (props : List (String × PropertyNode)),
    (∀ f ∈ (walkProps cfg reg props).1, FieldFrom cfg f props)
    ∧ (∀ d ∈ (walkProps cfg reg props).2.1, ∀ f ∈ d.fields, FieldFrom cfg f props) := by
  intro reg props
  induction reg, props using walkProps.induct cfg with
  | case1 reg =>
    rw [walkProps_nil]
    exact ⟨fun f hf => absurd hf (List.not_mem_nil f),
           fun d hd => absurd hd (List.not_mem_nil d)⟩
  | case2 reg name ntype children rest h1 ih =>
    rw [walkProps_skip cfg reg name ntype children rest h1]
    refine ⟨fun f hf => ?_, fun d hd f hf => ?_⟩
    · obtain ⟨n, nd, hocc, hk, he⟩ := ih.1 f hf
      exact ⟨n, nd, hocc.mono (fun p hp => List.mem_cons_of_mem _ hp), hk, he⟩
    · obtain ⟨n, nd, hocc, hk, he⟩ := ih.2 d hd f hf
      exact ⟨n, nd, hocc.mono (fun p hp => List.mem_cons_of_mem _ hp), hk, he⟩
  | case3 reg name ntype children rest h1 h2 h3 ih =>
    rw [walkProps_comp_seen cfg reg name ntype children rest h1 h2 h3]
    refine ⟨fun f hf => ?_, fun d hd f hf => ?_⟩
    · rcases List.mem_cons.mp hf with rfl | hf
      · exact ⟨name, PropertyNode.mk ntype children,
          PropOccurs.here (List.mem_cons_self _ _), rfl, rfl⟩
      · obtain ⟨n, nd, hocc, hk, he⟩ := ih.1 f hf
        exact ⟨n, nd, hocc.mono (fun p hp => List.mem_cons_of_mem _ hp), hk, he⟩
    · obtain ⟨n, nd, hocc, hk, he⟩ := ih.2 d hd f hf
      exact ⟨n, nd, hocc.mono (fun p hp => List.mem_cons_of_mem _ hp), hk, he⟩
  | case5 reg name ntype children rest h1 h2 ih =>
    rw [walkProps_scalar cfg reg name ntype children rest h1 h2]
    refine ⟨fun f hf => ?_, fun d hd f hf => ?_⟩
    · rcases List.mem_cons.mp hf with rfl | hf
      · exact ⟨name, PropertyNode.mk ntype children,
          PropOccurs.here (List.mem_cons_self _ _), rfl, rfl⟩
      · obtain ⟨n, nd, hocc, hk, he⟩ := ih.1 f hf
        exact ⟨n, nd, hocc.mono (fun p hp => List.mem_cons_of_mem _ hp), hk, he⟩
    · obtain ⟨n, nd, hocc, hk, he⟩ := ih.2 d hd f hf
      exact ⟨n, nd, hocc.mono (fun p hp => List.mem_cons_of_mem _ hp), hk, he⟩
  | case4 reg name ntype children rest h1 h2 h3 ihc ihr =>
    rw [walkProps_comp_new cfg reg name ntype children rest h1 h2 h3]
    have lift : ∀ {n nd}, PropOccurs n nd children →
        PropOccurs n nd ((name, PropertyNode.mk ntype children) :: rest) :=
      fun hocc => PropOccurs.inChild name (PropertyNode.mk ntype children)
        (List.mem_cons_self _ _) hocc
    constructor
    · intro f hf
      rcases List.mem_cons.mp hf with rfl | hf
      · exact ⟨name, PropertyNode.mk ntype children,
          PropOccurs.here (List.mem_cons_self _ _), rfl, rfl⟩
      · obtain ⟨n, nd, hocc, hk, he⟩ := ihr.1 f hf
        exact ⟨n, nd, hocc.mono (fun p hp => List.mem_cons_of_mem _ hp), hk, he⟩
    · intro d hd
      simp only [List.cons_append, List.mem_cons, List.mem_append] at hd
      rcases hd with rfl | hd | hd
      · intro f hf
        obtain ⟨n, nd, hocc, hk, he⟩ := ihc.1 f (mem_sortFields.mp hf)
        exact ⟨n, nd, lift hocc, hk, he⟩
      · intro f hf
        obtain ⟨n, nd, hocc, hk, he⟩ := ihc.2 d hd f hf
        exact ⟨n, nd, lift hocc, hk, he⟩
      · intro f hf
        obtain ⟨n, nd, hocc, hk, he⟩ := ihr.2 d hd f hf
        exact ⟨n, nd, hocc.mono (fun p hp => List.mem_cons_of_mem _ hp), hk, he⟩

theorem walk_composite (cfg : Config) : ∀ (reg : List String)
    (props : List (String × PropertyNode)),
    ∀ name node, (name, node) ∈ props → name ∉ cfg.skipFields →
      isComposite node.type = true →
      (∃ f ∈ (walkProps cfg reg props).1, f.sourceKey = name
         ∧ f.emittedName = mapElasticsearchFieldToGoField cfg.fieldExceptions name
         ∧ f.emittedType = compositeRef node.type (subStructName cfg name))
      ∧ subStructName cfg name ∈ (walkProps cfg reg props).2.2 := by
  intro reg props
  induction reg, props using walkProps.induct cfg with
  | case1 reg =>
    rw [walkProps_nil]
    intro name node h
    exact absurd h (List.not_mem_nil _)
  | case2 reg nm ntype children rest h1 ih =>
    rw [walkProps_skip cfg reg nm ntype children rest h1]
    intro name node hmem hskip hcomp
    rcases List.mem_cons.mp hmem with heq | hmem
    · injection heq with e1 e2
      subst e1
      exact absurd h1 hskip
    · exact ih name node hmem hskip hcomp
  | case3 reg nm ntype children rest h1 h2 h3 ih =>
    rw [walkProps_comp_seen cfg reg nm ntype children rest h1 h2 h3]
    intro name node hmem hskip hcomp
    rcases List.mem_cons.mp hmem with heq | hmem
    · injection heq with e1 e2
      subst e1; subst e2
      refine ⟨⟨mkCompositeField cfg name ntype, List.mem_cons_self _ _, rfl, rfl, rfl⟩, ?_⟩
      exact walk_reg_mono cfg reg rest _ h3
    · obtain ⟨⟨f, hf, hprops⟩, hreg⟩ := ih name node hmem hskip hcomp
      exact ⟨⟨f, List.mem_cons_of_mem _ hf, hprops⟩, hreg⟩
  | case5 reg nm ntype children rest h1 h2 ih =>
    rw [walkProps_scalar cfg reg nm ntype children rest h1 h2]
    intro name node hmem hskip hcomp
    rcases List.mem_cons.mp hmem with heq | hmem
    · injection heq with e1 e2
      subst e1; subst e2
      exact absurd hcomp h2
    · obtain ⟨⟨f, hf, hprops⟩, hreg⟩ := ih name node hmem hskip hcomp
      exact ⟨⟨f, List.mem_cons_of_mem _ hf, hprops⟩, hreg⟩
  | case4 reg nm ntype children rest h1 h2 h3 ihc ihr =>
    rw [walkProps_comp_new cfg reg nm ntype children rest h1 h2 h3]
    intro name node hmem hskip hcomp
    rcases List.mem_cons.mp hmem with heq | hmem
    · injection heq with e1 e2
      subst e1; subst e2
      refine ⟨⟨mkCompositeField cfg name ntype, List.mem_cons_self _ _, rfl, rfl, rfl⟩, ?_⟩
      exact walk_reg_mono cfg _ rest _
        (walk_reg_mono cfg _ children _ (List.mem_cons_self _ _))
    · obtain ⟨⟨f, hf, hprops⟩, hreg⟩ := ihr name node hmem hskip hcomp
      exact ⟨⟨f, List.mem_cons_of_mem _ hf, hprops⟩, hreg⟩

theorem emitStruct_seen (cfg : Config) (reg : List String) (structureName : String)
    (props : List (String × PropertyNode)) (h : structureName ∈ reg) :
    emitStruct cfg reg structureName props = ([], reg) := by
  simp [emitStruct, h]

theorem emitStruct_new (cfg : Config) (reg : List String) (structureName : String)
    (props : List (String × PropertyNode)) (h : structureName ∉ reg) :
    emitStruct cfg reg structureName props =
      (StructureDefinition.mk structureName
          (sortFields (walkProps cfg (structureName :: reg) props).1)
        :: (walkProps cfg (structureName :: reg) props).2.1,
       (walkProps cfg (structureName :: reg) props).2.2) := by
  simp [emitStruct, h]

theorem flatten_goTitle_filter : ∀ l : List (List Char),
    List.flatten (l.map (goTitleAux false)) =
      List.flatten ((l.filter (fun s => !s.isEmpty)).map (goTitleAux false)) := by
  intro l
  induction l with
  | nil => rfl
  | cons s rest ih =>
    cases s with
    | nil => simpa [goTitleAux, List.filter_cons] using ih
    | cons c cs => simp only [List.map_cons, List.flatten_cons, List.filter_cons,
        List.isEmpty_cons, Bool.not_false, if_pos, ih]

/-- C5: type resolution follows the precedence TypeExceptions (by field
name, verbatim) over TypeMapping (by declared type) over the fallback
token, and is total (never an error). -/
theorem C5_type_resolution_precedence (typeExceptions goTypeMap : Table)
    (name esType : String) :
    (∀ v, lookupTable typeExceptions name = some v →
        mapElasticsearchTypeToGoType typeExceptions goTypeMap name esType = v)
    ∧ (lookupTable typeExceptions name = none →
        ∀ g, lookupTable goTypeMap esType = some g →
          mapElasticsearchTypeToGoType typeExceptions goTypeMap name esType = g)
    ∧ (lookupTable typeExceptions name = none →
        lookupTable goTypeMap esType = none →
          mapElasticsearchTypeToGoType typeExceptions goTypeMap name esType
            = "interface\x7b\x7d") := by
  refine ⟨fun v hv => ?_, fun h1 g hg => ?_, fun h1 h2 => ?_⟩
  · simp [mapElasticsearchTypeToGoType, hv]
  · simp [mapElasticsearchTypeToGoType, h1, hg]
  · simp [mapElasticsearchTypeToGoType, h1, h2]

/-- Witness for C5: a field-name exception wins over the declared type, the
type mapping applies otherwise, and an unrecognized declared type resolves
to the fallback token. -/
theorem C5_type_resolution_witness :
    mapElasticsearchTypeToGoType [("loc", "*GeoPoint")] defaultGoTypeMap "loc" "text"
        = "*GeoPoint"
    ∧ mapElasticsearchTypeToGoType [("loc", "*GeoPoint")] defaultGoTypeMap "cafe_name" "text"
        = "*string"
    ∧ mapElasticsearchTypeToGoType [("loc", "*GeoPoint")] defaultGoTypeMap "cafe_name" "wild"
        = "interface\x7b\x7d" :=
  ⟨(C5_type_resolution_precedence [("loc", "*GeoPoint")] defaultGoTypeMap "loc" "text").1
      "*GeoPoint" (by decide),
   (C5_type_resolution_precedence [("loc", "*GeoPoint")] defaultGoTypeMap "cafe_name" "text").2.1
      (by decide) "*string" (by decide),
   (C5_type_resolution_precedence [("loc", "*GeoPoint")] defaultGoTypeMap "cafe_name" "wild").2.2
      (by decide) (by decide)⟩

/-- C9: the name resolver returns a FieldNameExceptions entry verbatim when
present; otherwise it splits on underscores, title-cases each segment and
concatenates them, empty segments contributing nothing. -/
theorem C9_name_resolver (fieldExceptions : Table) (n : String) :
    (∀ v, lookupTable fieldExceptions n = some v →
        mapElasticsearchFieldToGoField fieldExceptions n = v)
    ∧ (lookupTable fieldExceptions n = none →
        mapElasticsearchFieldToGoField fieldExceptions n =
          ⟨List.flatten ((splitUnderscore n.data).map (goTitleAux false))⟩)
    ∧ mapElasticsearchFieldToGoField fieldExceptions n =
        match lookupTable fieldExceptions n with
        | some v => v
        | none =>
          ⟨List.flatten (((splitUnderscore n.data).filter
              (fun s => !s.isEmpty)).map (goTitleAux false))⟩ := by
  refine ⟨fun v hv => ?_, fun h1 => ?_, ?_⟩
  · simp [mapElasticsearchFieldToGoField, hv]
  · simp [mapElasticsearchFieldToGoField, h1, toCamelCase]
  · cases hv : lookupTable fieldExceptions n with
    | some v => simp [mapElasticsearchFieldToGoField, hv]
    | none =>
      simp only [mapElasticsearchFieldToGoField, hv, toCamelCase]
      rw [flatten_goTitle_filter]

/-- Witness for C9: the exception is returned verbatim; `cafe__name` (with
a double underscore) camel-cases to `CafeName`, the empty middle segment
contributing nothing; a segment with leading digits still title-cases its
first letter, so `1abc` and `1_abc` both resolve to `1Abc` as under the
program's caser. -/
theorem C9_name_resolver_witness :
    mapElasticsearchFieldToGoField [("my_field", "MyCustomField")] "my_field" = "MyCustomField"
    ∧ mapElasticsearchFieldToGoField [] "cafe__name"
        = ⟨List.flatten ((splitUnderscore ("cafe__name" : String).data).map (goTitleAux false))⟩
    ∧ mapElasticsearchFieldToGoField [] "cafe__name" = "CafeName"
    ∧ mapElasticsearchFieldToGoField [] "1abc" = "1Abc"
    ∧ mapElasticsearchFieldToGoField [] "1_abc" = "1Abc" :=
  ⟨(C9_name_resolver [("my_field", "MyCustomField")] "my_field").1 "MyCustomField" (by decide),
   (C9_name_resolver [] "cafe__name").2.1 (by decide),
   by decide, by decide, by decide⟩

/-- C10: two distinct source field names resolving to the same identifier
are both emitted in the same structure — identical identifiers, distinct
wire keys, no deduplication (the output keeps one field per input
property) and no error. -/
theorem C10_collision_no_dedup (fe te gm : Table) (props : List (String × String))
    (n1 t1 n2 t2 : String)
    (h1 : (n1, t1) ∈ props) (h2 : (n2, t2) ∈ props) (hne : n1 ≠ n2)
    (hcol : mapElasticsearchFieldToGoField fe n1 = mapElasticsearchFieldToGoField fe n2) :
    (∃ f1 ∈ processFileFields fe te gm props, ∃ f2 ∈ processFileFields fe te gm props,
        f1 ≠ f2 ∧ f1.FieldName = f2.FieldName ∧ f1.JSONName = n1 ∧ f2.JSONName = n2
        ∧ f1.FieldName = mapElasticsearchFieldToGoField fe n1)
    ∧ (processFileFields fe te gm props).length = props.length := by
  constructor
  · refine ⟨mkSrcField fe te gm (n1, t1), ?_, mkSrcField fe te gm (n2, t2), ?_, ?_, ?_, rfl, rfl, rfl⟩
    · exact (processFileFields_perm fe te gm props).mem_iff.mpr
        (List.mem_map_of_mem _ h1)
    · exact (processFileFields_perm fe te gm props).mem_iff.mpr
        (List.mem_map_of_mem _ h2)
    · intro he
      exact hne (congrArg Field.JSONName he)
    · exact hcol
  · rw [(processFileFields_perm fe te gm props).length_eq, List.length_map]

/-- Witness for C10: `cafe_name` and `cafe_Name` both resolve to
`CafeName`; the output of that run holds both fields. -/
theorem C10_collision_witness :
    (∃ f1 ∈ processFileFields [] [] defaultGoTypeMap
          [("cafe_name", "text"), ("cafe_Name", "text")],
      ∃ f2 ∈ processFileFields [] [] defaultGoTypeMap
          [("cafe_name", "text"), ("cafe_Name", "text")],
        f1 ≠ f2 ∧ f1.FieldName = f2.FieldName
        ∧ f1.JSONName = "cafe_name" ∧ f2.JSONName = "cafe_Name"
        ∧ f1.FieldName = mapElasticsearchFieldToGoField [] "cafe_name")
    ∧ (processFileFields [] [] defaultGoTypeMap
        [("cafe_name", "text"), ("cafe_Name", "text")]).length
      = ([("cafe_name", "text"), ("cafe_Name", "text")] :
          List (String × String)).length :=
  C10_collision_no_dedup [] [] defaultGoTypeMap
    [("cafe_name", "text"), ("cafe_Name", "text")]
    "cafe_name" "text" "cafe_Name" "text"
    (by decide) (by decide) (by decide) (by decide)

/-- C4 (amended): emitted fields are in ascending (non-strict) order of
resolved identifiers; the order is strictly ascending whenever the
resolved identifiers are pairwise distinct. -/
theorem C4_field_order_amended (fe te gm : Table) (props : List (String × String)) :
    (processFileFields fe te gm props).Pairwise goFieldLe
    ∧ (((processFileFields fe te gm props).map Field.FieldName).Nodup →
        (processFileFields fe te gm props).Pairwise goFieldLt) := by
  refine ⟨processFileFields_sorted fe te gm props, fun hnd => ?_⟩
  exact pairwise_strict_of_nodup Field.FieldName
    (processFileFields_sorted fe te gm props) hnd

/-- Counterexample to C4 as stated: with source fields `cafe_name` and
`cafe_Name` both resolving to `CafeName`, the emitted fields of the run
are not in strictly ascending identifier order. -/
theorem C4_field_order_counterexample :
    ¬ (processFileFields [] [] defaultGoTypeMap
        [("cafe_name", "text"), ("cafe_Name", "text")]).Pairwise goFieldLt := by
  decide

/-- Witness for C4 (amended): on the README cafe fields the output is
sorted, and strictly sorted since the identifiers are distinct. -/
theorem C4_field_order_witness :
    (processFileFields [] [] defaultGoTypeMap
        [("cafe_name", "text"), ("address", "text")]).Pairwise goFieldLt :=
  (C4_field_order_amended [] [] defaultGoTypeMap
      [("cafe_name", "text"), ("address", "text")]).2 (by decide)

/-- C3 (amended): the output text is a function of the schema, the override
tables and the property iteration order; whenever no two properties
resolve to the same identifier, it is moreover independent of the
iteration order, so two such runs are byte-identical. -/
theorem C3_determinism_amended (fe te gm : Table) (pkg sname iname : String)
    (props1 props2 : List (String × String))
    (hp : props1.Perm props2)
    (hnd : ((props1.map (mkSrcField fe te gm)).map Field.FieldName).Nodup) :
    processFileOutput fe te gm pkg sname iname props1 =
      processFileOutput fe te gm pkg sname iname props2 := by
  have hfields : processFileFields fe te gm props1 = processFileFields fe te gm props2 := by
    refine eq_of_perm_of_sorted_key Field.FieldName ?_
      (processFileFields_sorted fe te gm props1)
      (processFileFields_sorted fe te gm props2) ?_
    · exact (processFileFields_perm fe te gm props1).trans
        ((hp.map (mkSrcField fe te gm)).trans
          (processFileFields_perm fe te gm props2).symm)
    · exact ((processFileFields_perm fe te gm props1).map Field.FieldName).nodup_iff.mpr hnd
  unfold processFileOutput
  rw [hfields]

/-- Counterexample to C3 as stated: the same schema presented in two map
iteration orders (both orders occur across runs, Go's map iteration being
randomized) yields two different output texts, because `cafe_name` and
`cafe_Name` resolve to the same identifier and only the identifier is used
by the sort. -/
theorem C3_determinism_counterexample :
    processFileOutput [] [] defaultGoTypeMap "searchmodel" "CafeDoc" "CafeDocWrapper"
        [("cafe_name", "text"), ("cafe_Name", "text")]
      ≠ processFileOutput [] [] defaultGoTypeMap "searchmodel" "CafeDoc" "CafeDocWrapper"
        [("cafe_Name", "text"), ("cafe_name", "text")] := by
  decide

/-- Witness for C3 (amended): with distinct resolved identifiers two
iteration orders produce byte-identical output. -/
theorem C3_determinism_witness :
    processFileOutput [] [] defaultGoTypeMap "searchmodel" "CafeDoc" "CafeDocWrapper"
        [("cafe_name", "text"), ("address", "text")]
      = processFileOutput [] [] defaultGoTypeMap "searchmodel" "CafeDoc" "CafeDocWrapper"
        [("address", "text"), ("cafe_name", "text")] :=
  C3_determinism_amended [] [] defaultGoTypeMap "searchmodel" "CafeDoc" "CafeDocWrapper"
    [("cafe_name", "text"), ("address", "text")]
    [("address", "text"), ("cafe_name", "text")]
    (by decide) (by decide)

/-- C6: the rendered output contains the wrapper structure — embedding the
root structure as a single composed field — exactly when a wrapper name is
configured; with no wrapper configured the output is the package header
followed by the structure definitions alone.  Stated for the built-in
templates and for a full generation run. -/
theorem C6_wrapper_iff_configured (packageName rootName defsText : String) :
    (∀ w, renderOutput packageName (some w) rootName defsText
        = "package " ++ packageName ++ "\n\n" ++ wrapperDecl w rootName ++ defsText)
    ∧ renderOutput packageName none rootName defsText
        = "package " ++ packageName ++ "\n\n" ++ defsText
    ∧ (∀ cfg w props, generateOutput cfg packageName (some w) rootName props
        = "package " ++ packageName ++ "\n\n" ++ wrapperDecl w rootName
          ++ renderDefs (emitStruct cfg [] rootName props).1)
    ∧ (∀ cfg props, generateOutput cfg packageName none rootName props
        = "package " ++ packageName ++ "\n\n"
          ++ renderDefs (emitStruct cfg [] rootName props).1) := by
  exact ⟨fun w => rfl, rfl, fun cfg w props => rfl, fun cfg props => rfl⟩

/-- C1: a non-skipped property with declared type `object` or `nested`
produces, in a fresh run, a sub-structure definition appended after the
parent structure, named from the `TypeExceptions` hint when present and
from the field's own UpperCamel name otherwise, and the field's resolved
type is the composite reference to that sub-structure name. -/
theorem C1_substructure_emission (cfg : Config) (rootName : String)
    (props : List (String × PropertyNode)) (name : String) (node : PropertyNode)
    (hmem : (name, node) ∈ props) (hskip : name ∉ cfg.skipFields)
    (hcomp : isComposite node.type = true)
    (hroot : subStructName cfg name ≠ rootName) :
    ∃ d0 tl, (emitStruct cfg [] rootName props).1 = d0 :: tl
      ∧ d0.name = rootName
      ∧ (∃ f ∈ d0.fields, f.sourceKey = name
           ∧ f.emittedName = mapElasticsearchFieldToGoField cfg.fieldExceptions name
           ∧ f.emittedType = compositeRef node.type (subStructName cfg name))
      ∧ (∃ d ∈ tl, d.name = subStructName cfg name)
      ∧ (lookupTable cfg.typeExceptions name = none →
           subStructName cfg name = toCamelCase name)
      ∧ (∀ hint, lookupTable cfg.typeExceptions name = some hint →
           subStructName cfg name = stripDecoration hint) := by
  rw [emitStruct_new cfg [] rootName props (List.not_mem_nil _)]
  refine ⟨_, _, rfl, rfl, ?_, ?_, ?_, ?_⟩
  · obtain ⟨⟨f, hf, h1, h2, h3⟩, _⟩ :=
      walk_composite cfg [rootName] props name node hmem hskip hcomp
    exact ⟨f, mem_sortFields.mpr hf, h1, h2, h3⟩
  · obtain ⟨_, hreg⟩ := walk_composite cfg [rootName] props name node hmem hskip hcomp
    rcases ((walk_registry cfg [rootName] props).1 _).mp hreg with hin | hin
    · simp only [defNames, List.mem_map] at hin
      obtain ⟨d, hd, hdn⟩ := hin
      exact ⟨d, hd, hdn⟩
    · rcases List.mem_cons.mp hin with he | he
      · exact absurd he hroot
      · exact absurd he (List.not_mem_nil _)
  · intro hnone
    simp [subStructName, hnone]
  · intro hint hsome
    simp [subStructName, hsome]

/-- Witness for C1: on the README's `menu_items` nested property the run
emits the parent `CafeDoc` first, a `MenuItems` definition after it, and a
field typed by the composite reference to `MenuItems`. -/
theorem C1_substructure_witness :
    ∃ d0 tl, (emitStruct cfgEmpty [] "CafeDoc" propsCafe).1 = d0 :: tl
      ∧ d0.name = "CafeDoc"
      ∧ (∃ f ∈ d0.fields, f.sourceKey = "menu_items"
           ∧ f.emittedName = mapElasticsearchFieldToGoField cfgEmpty.fieldExceptions "menu_items"
           ∧ f.emittedType = compositeRef (PropertyNode.mk "nested"
               [("item_name", PropertyNode.mk "text" [])]).type
               (subStructName cfgEmpty "menu_items"))
      ∧ (∃ d ∈ tl, d.name = subStructName cfgEmpty "menu_items")
      ∧ (lookupTable cfgEmpty.typeExceptions "menu_items" = none →
           subStructName cfgEmpty "menu_items" = toCamelCase "menu_items")
      ∧ (∀ hint, lookupTable cfgEmpty.typeExceptions "menu_items" = some hint →
           subStructName cfgEmpty "menu_items" = stripDecoration hint) :=
  C1_substructure_emission cfgEmpty "CafeDoc" propsCafe "menu_items"
    (PropertyNode.mk "nested" [("item_name", PropertyNode.mk "text" [])])
    (List.mem_cons_self _ _) (by decide) (by decide) (by decide)

/-- C2: the emission registry makes structure emission idempotent per
structure name — a name already registered yields no output at all, every
name in a run's output is defined exactly once, and no emitted definition
re-defines a name that was already registered when the walk began. -/
theorem C2_idempotent_dedup (cfg : Config) (reg : List String) (structureName : String)
    (props : List (String × PropertyNode)) :
    (structureName ∈ reg → emitStruct cfg reg structureName props = ([], reg))
    ∧ (defNames (emitStruct cfg reg structureName props).1).Nodup
    ∧ (∀ d ∈ (emitStruct cfg reg structureName props).1, d.name ∉ reg) := by
  refine ⟨fun h => emitStruct_seen cfg reg structureName props h, ?_, ?_⟩
  · by_cases hs : structureName ∈ reg
    · rw [emitStruct_seen cfg reg structureName props hs]
      exact List.nodup_nil
    · rw [emitStruct_new cfg reg structureName props hs, defNames_cons]
      refine List.nodup_cons.mpr ⟨?_, (walk_registry cfg (structureName :: reg) props).2.1⟩
      intro hin
      simp only [defNames, List.mem_map] at hin
      obtain ⟨d, hd, hdn⟩ := hin
      exact (walk_registry cfg (structureName :: reg) props).2.2 d hd
        (by rw [hdn]; exact List.mem_cons_self _ _)
  · by_cases hs : structureName ∈ reg
    · rw [emitStruct_seen cfg reg structureName props hs]
      intro d hd
      exact absurd hd (List.not_mem_nil d)
    · rw [emitStruct_new cfg reg structureName props hs]
      intro d hd
      rcases List.mem_cons.mp hd with rfl | hd
      · exact hs
      · intro hin
        exact (walk_registry cfg (structureName :: reg) props).2.2 d hd
          (List.mem_cons_of_mem _ hin)

/-- Witness for C2: re-entry on a registered name emits nothing, and a run
over two composite properties whose derived sub-structure names collide
still defines each name only once. -/
theorem C2_idempotent_witness :
    emitStruct cfgEmpty ["CafeDoc"] "CafeDoc" propsCafe = ([], ["CafeDoc"])
    ∧ (defNames (emitStruct cfgEmpty [] "CafeDoc" propsDup).1).Nodup :=
  ⟨(C2_idempotent_dedup cfgEmpty ["CafeDoc"] "CafeDoc" propsCafe).1 (List.mem_cons_self _ _),
   (C2_idempotent_dedup cfgEmpty [] "CafeDoc" propsDup).2.1⟩

/-- C7: a source field name listed in SkipFields appears in no emitted
structure of the run, nested structures included. -/
theorem C7_skip_completeness (cfg : Config) (reg : List String)
    (structureName name : String) (props : List (String × PropertyNode))
    (h : name ∈ cfg.skipFields) :
    ∀ d ∈ (emitStruct cfg reg structureName props).1, ∀ f ∈ d.fields,
      f.sourceKey ≠ name := by
  intro d hd f hf he
  by_cases hs : structureName ∈ reg
  · rw [emitStruct_seen cfg reg structureName props hs] at hd
    exact absurd hd (List.not_mem_nil d)
  · rw [emitStruct_new cfg reg structureName props hs] at hd
    rcases List.mem_cons.mp hd with rfl | hd
    · exact (walk_skip_invariant cfg (structureName :: reg) props).1 f
        (mem_sortFields.mp hf) (by rw [he]; exact h)
    · exact (walk_skip_invariant cfg (structureName :: reg) props).2 d hd f hf
        (by rw [he]; exact h)

/-- Witness for C7: with `secret` in the skip list, the run over a schema
holding `secret` and `cafe_name` emits only the `cafe_name` field, and the
emitted field's wire key differs from `secret`. -/
theorem C7_skip_witness :
    (emitStruct cfgSkipDemo [] "Doc" propsSkipDemo).1
      = [StructureDefinition.mk "Doc" [mkScalarField cfgSkipDemo "cafe_name" "text"]]
    ∧ "secret" ∈ cfgSkipDemo.skipFields
    ∧ (mkScalarField cfgSkipDemo "cafe_name" "text").sourceKey ≠ "secret" := by
  have heval : (emitStruct cfgSkipDemo [] "Doc" propsSkipDemo).1
      = [StructureDefinition.mk "Doc" [mkScalarField cfgSkipDemo "cafe_name" "text"]] := by
    rw [emitStruct_new cfgSkipDemo [] "Doc" propsSkipDemo (List.not_mem_nil _)]
    rw [show propsSkipDemo
        = ("secret", PropertyNode.mk "text" []) :: [("cafe_name", PropertyNode.mk "text" [])]
      from rfl]
    rw [walkProps_skip cfgSkipDemo ["Doc"] "secret" "text" [] _ (by decide)]
    rw [walkProps_scalar cfgSkipDemo ["Doc"] "cafe_name" "text" [] [] (by decide) (by decide)]
    rw [walkProps_nil]
    simp [sortFields]
  refine ⟨heval, by decide, ?_⟩
  exact C7_skip_completeness cfgSkipDemo [] "Doc" "secret" propsSkipDemo (by decide)
    (StructureDefinition.mk "Doc" [mkScalarField cfgSkipDemo "cafe_name" "text"])
    (by rw [heval]; exact List.mem_cons_self _ _)
    (mkScalarField cfgSkipDemo "cafe_name" "text") (List.mem_cons_self _ _)

/-- C8: every emitted field of a run carries as its wire (serialization)
tag an actual source schema field name — its `sourceKey` — while its
rendered identifier is the name resolver's output for that source name, so
a FieldNameExceptions rename changes the identifier but never the tag. -/
theorem C8_wire_tag_is_source_name (cfg : Config) (reg : List String)
    (structureName : String) (props : List (String × PropertyNode)) :
    ∀ d ∈ (emitStruct cfg reg structureName props).1, ∀ f ∈ d.fields,
      ∃ n nd, PropOccurs n nd props ∧ f.sourceKey = n
        ∧ f.emittedName = mapElasticsearchFieldToGoField cfg.fieldExceptions n
        ∧ renderResolvedField f
            = ("\t" ++ f.emittedName ++ " " ++ f.emittedType)
              ++ (" `json:\"" ++ n ++ "\"`")
              ++ (renderComment f.comment ++ "\n") := by
  intro d hd f hf
  have key : FieldFrom cfg f props := by
    by_cases hs : structureName ∈ reg
    · rw [emitStruct_seen cfg reg structureName props hs] at hd
      exact absurd hd (List.not_mem_nil d)
    · rw [emitStruct_new cfg reg structureName props hs] at hd
      rcases List.mem_cons.mp hd with rfl | hd
      · exact (walk_provenance cfg (structureName :: reg) props).1 f (mem_sortFields.mp hf)
      · exact (walk_provenance cfg (structureName :: reg) props).2 d hd f hf
  obtain ⟨n, nd, hocc, hk, he⟩ := key
  refine ⟨n, nd, hocc, hk, he, ?_⟩
  rw [renderResolvedField, hk]
  simp [String.append_assoc]

/-- Witness for C8: with the exception renaming `cafe_name` to `Title`,
the emitted field renders as `Title` while its wire tag stays
`cafe_name`. -/
theorem C8_wire_tag_witness :
    (emitStruct cfgRenameDemo [] "Doc" propsRenameDemo).1
      = [StructureDefinition.mk "Doc" [mkScalarField cfgRenameDemo "cafe_name" "text"]]
    ∧ (mkScalarField cfgRenameDemo "cafe_name" "text").emittedName = "Title"
    ∧ (∃ n nd, PropOccurs n nd propsRenameDemo
        ∧ (mkScalarField cfgRenameDemo "cafe_name" "text").sourceKey = n
        ∧ (mkScalarField cfgRenameDemo "cafe_name" "text").emittedName
            = mapElasticsearchFieldToGoField cfgRenameDemo.fieldExceptions n
        ∧ renderResolvedField (mkScalarField cfgRenameDemo "cafe_name" "text")
            = ("\t" ++ (mkScalarField cfgRenameDemo "cafe_name" "text").emittedName ++ " "
                ++ (mkScalarField cfgRenameDemo "cafe_name" "text").emittedType)
              ++ (" `json:\"" ++ n ++ "\"`")
              ++ (renderComment (mkScalarField cfgRenameDemo "cafe_name" "text").comment
                  ++ "\n")) := by
  have heval : (emitStruct cfgRenameDemo [] "Doc" propsRenameDemo).1
      = [StructureDefinition.mk "Doc" [mkScalarField cfgRenameDemo "cafe_name" "text"]] := by
    rw [emitStruct_new cfgRenameDemo [] "Doc" propsRenameDemo (List.not_mem_nil _)]
    rw [show propsRenameDemo = ("cafe_name", PropertyNode.mk "text" []) :: [] from rfl]
    rw [walkProps_scalar cfgRenameDemo ["Doc"] "cafe_name" "text" [] [] (by decide) (by decide)]
    rw [walkProps_nil]
    simp [sortFields]
  refine ⟨heval, by decide, ?_⟩
  exact C8_wire_tag_is_source_name cfgRenameDemo [] "Doc" propsRenameDemo
    (StructureDefinition.mk "Doc" [mkScalarField cfgRenameDemo "cafe_name" "text"])
    (by rw [heval]; exact List.mem_cons_self _ _)
    (mkScalarField cfgRenameDemo "cafe_name" "text") (List.mem_cons_self _ _)

end ES2Go
